import Mathlib

/-! marathonctl: the actions under command `app` (src/app.go).

A shallow embedding of the seven actions of `app.go` (AppList, AppVersions,
AppShow, AppCreate, AppUpdate, AppRestart, AppDestroy) and of the Go library
function `url.QueryEscape` they call, followed by the theorems that settle the
claims C1 .. C10 about them.

Go strings are byte sequences, so a string is a list of bytes here.
-/

namespace Marathonctl

/-! ## Go strings -/

/-- One byte of a Go string. -/
abbrev Byte := Fin 256

/-- A Go string: an immutable sequence of bytes. -/
abbrev GoString := List Byte

/-- The byte of an ASCII character. -/
def byteOf (c : Char) : Byte := ⟨c.toNat % 256, Nat.mod_lt _ (by decide)⟩

/-- A Go string literal of the source; used on ASCII literals only. -/
def ascii (s : String) : GoString := s.toList.map byteOf

/-! ## net/url: `QueryEscape`

`url.QueryEscape(s)` is `escape(s, encodeQueryComponent)` of Go's `net/url`.
The definitions below follow that function with the mode fixed to
`encodeQueryComponent`. -/

/-- Go's `shouldEscape(c, encodeQueryComponent)`: alphanumerics and the marks
`-`, `_`, `.`, `~` are kept, every other byte (the reserved characters
included, in this mode) is escaped. -/
def shouldEscape (c : Byte) : Bool :=
  if (97 ≤ c.val ∧ c.val ≤ 122) ∨ (65 ≤ c.val ∧ c.val ≤ 90) ∨ (48 ≤ c.val ∧ c.val ≤ 57) then
    false
  else if c = 45 ∨ c = 95 ∨ c = 46 ∨ c = 126 then
    false
  else
    true

/-- Go's `upperhex = "0123456789ABCDEF"`, indexed by a nibble. -/
def upperhex (n : Nat) : Byte :=
  (ascii "0123456789ABCDEF").getD n 0

/-- The first loop of `escape`: the number of spaces that need escaping. -/
def spaceCount (s : GoString) : Nat :=
  (s.filter (fun c => shouldEscape c && c == 32)).length

/-- The first loop of `escape`: the number of bytes that become a hex triple. -/
def hexCount (s : GoString) : Nat :=
  (s.filter (fun c => shouldEscape c && !(c == 32))).length

/-- One iteration of the second loop of `escape`: a space becomes `+`, a byte
to escape becomes `%` and two upper-case hex digits (`c>>4`, `c&15`), any other
byte is copied. -/
def escapeByte (c : Byte) : GoString :=
  if c = 32 then [43]
  else if shouldEscape c then [37, upperhex (c.val / 16), upperhex (c.val % 16)]
  else [c]

/-- Go's `url.QueryEscape`: the string itself when nothing needs escaping,
otherwise the concatenation of the escaped bytes. -/
def QueryEscape (s : GoString) : GoString :=
  if spaceCount s = 0 ∧ hexCount s = 0 then s
  else s.flatMap escapeByte

/-! ## Collaborators declared outside app.go

app.go uses the HTTP client, the formatter, `Check`, `Columnize` and the
payload types without declaring them. Each is taken from the specification
and kept as general as the specification leaves it. -/

/-- The four request-builder primitives of the client. -/
inductive Verb where
  | GET
  | POST
  | PUT
  | DELETE
deriving DecidableEq, Repr

/-- An opened local file, the `*os.File` returned by `os.Open(name)`. -/
structure File where
  name : GoString
  contents : GoString
deriving DecidableEq

/-- Modelled from the spec: the request object returned by `client.GET(path)`,
`client.POST(path, body)`, `client.PUT(path, body)` and `client.DELETE(path)`
(spec §6); the client is declared outside app.go, so a request is the record of
the builder call: which primitive, which path, which body reader (`none` for
GET, DELETE and a nil body). -/
structure Request where
  verb : Verb
  path : GoString
  body : Option File
deriving DecidableEq

/-- Modelled from the spec: the response of `client.Do`, exposing a status
code and a readable, closable body stream (spec §6). -/
structure Response where
  StatusCode : Int
  Body : GoString
deriving DecidableEq

/-- What a deferred `Close()` closes. -/
inductive Resource where
  | file (f : File)
  | responseBody (r : Response)
deriving DecidableEq

/-- The ways a run of an action ends fatally: one constructor per `Check` of
app.go, and the run-time panic of an out-of-range index. -/
inductive Fatal where
  /-- The `Check` on `len(args)`. -/
  | usage
  /-- The `Check(e == nil, ...)` after `os.Open`. -/
  | openFile
  /-- The `Check(e == nil, ...)` after `client.Do`. -/
  | transport
  /-- The `Check` on `response.StatusCode`, carrying the observed code. -/
  | status (code : Int)
  /-- A `Check` inside `Format`: the `Check(e == nil, ...)` after `dec.Decode`
  of a Humanize. -/
  | decode
  /-- Go's panic on `args[i]` with `i` out of range. -/
  | indexOutOfRange
deriving DecidableEq

deriving instance DecidableEq for Except

/-- The observable steps of one run of an `Apply`. -/
inductive Event where
  /-- The call `os.Open(name)`. -/
  | osOpen (name : GoString)
  /-- The statement `defer x.Close()`: the close of `x` is registered. -/
  | deferClose (r : Resource)
  /-- The call of a request builder of the client. -/
  | build (r : Request)
  /-- The call `client.Do(request)` and what it returned (`none`: an error). -/
  | Do (r : Request) (response : Option Response)
  /-- The call `a.format.Format(body, a.Humanize)`. -/
  | Format (body : GoString)
  /-- The bytes written to standard output. -/
  | stdout (text : GoString)
deriving DecidableEq

/-- Modelled from the spec: the payload type `Application` (spec §3, §6) with
the fields app.go reads from it. -/
structure Application where
  ID : GoString
  Version : GoString
  User : GoString
  Instances : Int
  Mem : Float
  Cmd : GoString

/-- Modelled from the spec: the payload type `Applications`, the list-of-apps
envelope (spec §6). -/
structure Applications where
  Apps : List Application

/-- Modelled from the spec: the payload type `Versions`, the versions envelope
(spec §6). -/
structure Versions where
  Versions : List GoString

/-- Modelled from the spec: the payload type `Update`, the update/restart
envelope (spec §6). -/
structure Update where
  DeploymentID : GoString
  Version : GoString

/-- Everything an action is handed or calls that is not in app.go: the file
system, the injected client and formatter, the JSON decoder of the Go library
at each payload type, `Columnize`, and the `%.2f` verb of `fmt.Sprintf`. -/
structure World where
  /-- The call `os.Open(name)`: the contents of the file when it opens. -/
  Open : GoString → Option GoString
  /-- The call `client.Do(request)`: the response, or `none` for an error. -/
  Do : Request → Option Response
  /-- The call `a.format.Format(body, humanize)` of the injected formatter;
  `none` when a `Check` fails inside it, which ends the process. -/
  Format : GoString → (GoString → Option GoString) → Option GoString
  /-- The function `Columnize` of the repository. -/
  Columnize : GoString → GoString
  /-- The call `json.NewDecoder(body).Decode(&applications)`. -/
  decodeApplications : GoString → Option Applications
  /-- The call `json.NewDecoder(body).Decode(&versions)`. -/
  decodeVersions : GoString → Option Versions
  /-- The call `json.NewDecoder(body).Decode(&application)`. -/
  decodeApplication : GoString → Option Application
  /-- The call `json.NewDecoder(body).Decode(&update)`. -/
  decodeUpdate : GoString → Option Update
  /-- The call `fmt.Sprintf("%.2f", mem)`. -/
  Sprintf2f : Float → GoString

/-- Modelled from the spec: the formatter in raw mode returns the body
verbatim and never invokes the rendering function (spec §4.2). -/
def Formatter.raw (body : GoString) (_humanize : GoString → Option GoString) :
    Option GoString :=
  some body

/-- Modelled from the spec: the formatter in humanize mode invokes the supplied
rendering function with the body and returns its result (spec §4.2). -/
def Formatter.humanize (body : GoString) (humanize : GoString → Option GoString) :
    Option GoString :=
  humanize body

/-! ## Runs -/

/-- One run of an `Apply`: the steps taken, in order, and how it ended. -/
structure Run (α : Type) where
  trace : List Event
  result : Except Fatal α

/-- Sequencing: the second part runs only when the first did not end fatally. -/
def Run.bind {α β : Type} (m : Run α) (f : α → Run β) : Run β :=
  match m.result with
  | .error e => ⟨m.trace, .error e⟩
  | .ok a => ⟨m.trace ++ (f a).trace, (f a).result⟩

instance : Monad Run where
  pure a := ⟨[], .ok a⟩
  bind := Run.bind

/-- One step is taken. -/
def emit (ev : Event) : Run Unit := ⟨[ev], .ok ()⟩

/-- Modelled from the spec: `Check(ok, message...)`, declared outside app.go; a
failed check is fatal, it terminates the process immediately with a diagnostic
and nothing after it runs (spec §4.3, §6, §7). -/
def Check (ok : Bool) (e : Fatal) : Run Unit :=
  if ok then ⟨[], .ok ()⟩ else ⟨[], .error e⟩

/-- The Go expression `args[i]`. -/
def index (args : List GoString) (i : Nat) : Run GoString :=
  match args.get? i with
  | some a => ⟨[], .ok a⟩
  | none => ⟨[], .error .indexOutOfRange⟩

/-- The statement `f, e := os.Open(name); Check(e == nil, ...)`. -/
def osOpen (w : World) (name : GoString) : Run File :=
  match w.Open name with
  | some contents => ⟨[.osOpen name], .ok ⟨name, contents⟩⟩
  | none => ⟨[.osOpen name], .error .openFile⟩

/-- A request builder of the client: `a.client.GET(path)` and its siblings. -/
def build (verb : Verb) (path : GoString) (body : Option File) : Run Request :=
  ⟨[.build ⟨verb, path, body⟩], .ok ⟨verb, path, body⟩⟩

/-- The statement `response, e := a.client.Do(request); Check(e == nil, ...)`. -/
def clientDo (w : World) (request : Request) : Run Response :=
  match w.Do request with
  | some response => ⟨[.Do request (some response)], .ok response⟩
  | none => ⟨[.Do request none], .error .transport⟩

/-- The expression `a.format.Format(response.Body, a.Humanize)`; a failed
`Check` inside the rendering function ends the run. -/
def format (w : World) (body : GoString) (humanize : GoString → Option GoString) :
    Run GoString :=
  match w.Format body humanize with
  | some text => ⟨[.Format body], .ok text⟩
  | none => ⟨[.Format body], .error .decode⟩

/-- The call `fmt.Println(text)`: the text and a newline go to standard output. -/
def Println (text : GoString) : Run Unit :=
  emit (.stdout (text ++ ascii "\n"))

/-! ## The actions of app.go

A Humanize returns `none` when its `Check(e == nil, ...)` after `dec.Decode`
fails: the process ends there and no text is returned. -/

/-- The variable `text` of `AppList.Humanize`: the title, then the buffer the
loop over `applications.Apps` wrote into. -/
def AppList.text (applications : Applications) : GoString :=
  let title := ascii "APP VERSION USER\n"
  let b := applications.Apps.foldl
    (fun b app => b ++ app.ID ++ ascii " " ++ app.Version ++ ascii " " ++ app.User ++ ascii "\n") []
  title ++ b

/-- The rendering of `AppList.Humanize` once the payload is decoded:
`Columnize(text)`. -/
def AppList.render (w : World) (applications : Applications) : GoString :=
  w.Columnize (AppList.text applications)

/-- The method `AppList.Humanize`. -/
def AppList.Humanize (w : World) (body : GoString) : Option GoString := do
  let applications ← w.decodeApplications body
  return AppList.render w applications

/-- The method `AppList.Apply`. -/
def AppList.Apply (w : World) (_args : List GoString) : Run Unit := do
  let path := ascii "/v2/apps"
  let request ← build .GET path none
  let response ← clientDo w request
  emit (.deferClose (.responseBody response))
  let text ← format w response.Body (AppList.Humanize w)
  Println text

/-- The rendering of `AppVersions.Humanize` once the payload is decoded. -/
def AppVersions.render (versions : Versions) : GoString :=
  let b := ascii "VERSIONS\n"
  versions.Versions.foldl (fun b version => b ++ version ++ ascii "\n") b

/-- The method `AppVersions.Humanize`. -/
def AppVersions.Humanize (w : World) (body : GoString) : Option GoString := do
  let versions ← w.decodeVersions body
  return AppVersions.render versions

/-- The method `AppVersions.Apply`. -/
def AppVersions.Apply (w : World) (args : List GoString) : Run Unit := do
  Check (decide (args.length > 0)) .usage
  let id := QueryEscape (← index args 0)
  let path := ascii "/v2/apps/" ++ id ++ ascii "/versions"
  let request ← build .GET path none
  let response ← clientDo w request
  emit (.deferClose (.responseBody response))
  let text ← format w response.Body (AppVersions.Humanize w)
  Println text

/-- The rendering of `AppShow.Humanize` once the payload is decoded. -/
def AppShow.render (w : World) (application : Application) : GoString :=
  let title := ascii "INSTANCES MEM CMD\n"
  let b := ascii (toString application.Instances)
  let b := b ++ ascii " "
  let mem := w.Sprintf2f application.Mem
  let b := b ++ mem
  let b := b ++ ascii " "
  let b := b ++ application.Cmd
  let text := title ++ b
  w.Columnize text

/-- The method `AppShow.Humanize`. -/
def AppShow.Humanize (w : World) (body : GoString) : Option GoString := do
  let application ← w.decodeApplication body
  return AppShow.render w application

/-- The method `AppShow.Apply`. -/
def AppShow.Apply (w : World) (args : List GoString) : Run Unit := do
  Check (decide (args.length = 2)) .usage
  let id := QueryEscape (← index args 0)
  let version := QueryEscape (← index args 1)
  let path := ascii "/v2/apps/" ++ id ++ ascii "/versions/" ++ version
  let request ← build .GET path none
  let response ← clientDo w request
  emit (.deferClose (.responseBody response))
  let text ← format w response.Body (AppShow.Humanize w)
  Println text

/-- The rendering of `AppCreate.Humanize` once the payload is decoded. -/
def AppCreate.render (w : World) (application : Application) : GoString :=
  let b := ascii "APPID VERSION\n"
  let b := b ++ application.ID
  let b := b ++ ascii " "
  let b := b ++ application.Version
  w.Columnize b

/-- The method `AppCreate.Humanize`. -/
def AppCreate.Humanize (w : World) (body : GoString) : Option GoString := do
  let application ← w.decodeApplication body
  return AppCreate.render w application

/-- The method `AppCreate.Apply`. -/
def AppCreate.Apply (w : World) (args : List GoString) : Run Unit := do
  Check (decide (args.length = 1)) .usage
  let f ← osOpen w (← index args 0)
  emit (.deferClose (.file f))
  let request ← build .POST (ascii "/v2/apps") (some f)
  let response ← clientDo w request
  emit (.deferClose (.responseBody response))
  Check (decide (response.StatusCode ≠ 409)) (.status response.StatusCode)
  let text ← format w response.Body (AppCreate.Humanize w)
  Println text

/-- The rendering of `AppUpdate.Humanize` once the payload is decoded. -/
def AppUpdate.render (w : World) (update : Update) : GoString :=
  let title := ascii "DEPLOYID VERSION\n"
  let text := title ++ update.DeploymentID ++ ascii " " ++ update.Version
  w.Columnize text

/-- The method `AppUpdate.Humanize`. -/
def AppUpdate.Humanize (w : World) (body : GoString) : Option GoString := do
  let update ← w.decodeUpdate body
  return AppUpdate.render w update

/-- The method `AppUpdate.Apply`. -/
def AppUpdate.Apply (w : World) (args : List GoString) : Run Unit := do
  Check (decide (args.length = 2)) .usage
  let id := QueryEscape (← index args 0)
  let f ← osOpen w (← index args 1)
  emit (.deferClose (.file f))
  let request ← build .PUT (ascii "/v2/apps/" ++ id ++ ascii "?force=true") (some f)
  let response ← clientDo w request
  emit (.deferClose (.responseBody response))
  let sc := response.StatusCode
  Check (decide (sc = 200)) (.status sc)
  let text ← format w response.Body (AppUpdate.Humanize w)
  Println text

/-- The rendering of `AppRestart.Humanize` once the payload is decoded. -/
def AppRestart.render (w : World) (update : Update) : GoString :=
  let title := ascii "DEPLOYID VERSION\n"
  let text := title ++ update.DeploymentID ++ ascii " " ++ update.Version
  w.Columnize text

/-- The method `AppRestart.Humanize`. -/
def AppRestart.Humanize (w : World) (body : GoString) : Option GoString := do
  let update ← w.decodeUpdate body
  return AppRestart.render w update

/-- The method `AppRestart.Apply`. -/
def AppRestart.Apply (w : World) (args : List GoString) : Run Unit := do
  Check (decide (args.length = 1)) .usage
  let id := QueryEscape (← index args 0)
  let request ← build .POST (ascii "/v2/apps/" ++ id ++ ascii "/restart?force=true") none
  let response ← clientDo w request
  emit (.deferClose (.responseBody response))
  let text ← format w response.Body (AppRestart.Humanize w)
  Println text

/-- The method `AppDestroy.Humanize`: a constant, the body is not read. -/
def AppDestroy.Humanize (_w : World) (_body : GoString) : Option GoString :=
  some (ascii "DESTROYED")

/-- The method `AppDestroy.Apply`; the status check comes before the
`defer response.Body.Close()`, as in the source. -/
def AppDestroy.Apply (w : World) (args : List GoString) : Run Unit := do
  Check (decide (args.length = 1)) .usage
  let path := ascii "/v2/apps/" ++ QueryEscape (← index args 0)
  let request ← build .DELETE path none
  let response ← clientDo w request
  let c := response.StatusCode
  Check (decide (c = 200)) (.status c)
  emit (.deferClose (.responseBody response))
  let text ← format w response.Body (AppDestroy.Humanize w)
  Println text

/-- The seven actions. -/
inductive Action where
  | AppList
  | AppVersions
  | AppShow
  | AppCreate
  | AppUpdate
  | AppRestart
  | AppDestroy
deriving DecidableEq, Repr

/-- The method `Apply` of an action. -/
def Action.Apply : Action → World → List GoString → Run Unit
  | .AppList => AppList.Apply
  | .AppVersions => AppVersions.Apply
  | .AppShow => AppShow.Apply
  | .AppCreate => AppCreate.Apply
  | .AppUpdate => AppUpdate.Apply
  | .AppRestart => AppRestart.Apply
  | .AppDestroy => AppDestroy.Apply

/-- The method `Humanize` of an action. -/
def Action.Humanize : Action → World → GoString → Option GoString
  | .AppList => AppList.Humanize
  | .AppVersions => AppVersions.Humanize
  | .AppShow => AppShow.Humanize
  | .AppCreate => AppCreate.Humanize
  | .AppUpdate => AppUpdate.Humanize
  | .AppRestart => AppRestart.Humanize
  | .AppDestroy => AppDestroy.Humanize

/-! ## Observations on a run -/

/-- The requests built during a run, in order. -/
def builds : List Event → List Request
  | [] => []
  | .build r :: es => r :: builds es
  | _ :: es => builds es

/-- The requests sent through `client.Do` during a run, in order. -/
def sends : List Event → List Request
  | [] => []
  | .Do r _ :: es => r :: sends es
  | _ :: es => sends es

/-- The writes to standard output during a run, in order. -/
def stdouts : List Event → List GoString
  | [] => []
  | .stdout t :: es => t :: stdouts es
  | _ :: es => stdouts es

/-- The bodies `Format` was called on during a run, in order. -/
def formats : List Event → List GoString
  | [] => []
  | .Format b :: es => b :: formats es
  | _ :: es => formats es

/-- The resources whose close is registered during a run, in order. -/
def deferred : List Event → List Resource
  | [] => []
  | .deferClose r :: es => r :: deferred es
  | _ :: es => deferred es

/-- A world for concrete runs: the file `app.json` opens, the transport answers
every request with the given status and body, the formatter is the given one,
`Columnize` is the identity, and the JSON decoders accept every body but the
empty one, always with the same payload. -/
def sampleWorld (status : Int) (body : GoString)
    (formatter : GoString → (GoString → Option GoString) → Option GoString) :
    World where
  Open name := if name = ascii "app.json" then some (ascii "\x7b\x7d") else none
  Do _ := some ⟨status, body⟩
  Format := formatter
  Columnize t := t
  decodeApplications b :=
    if b = [] then none else some ⟨[⟨ascii "app1", ascii "v1", ascii "bob", 0, 0, []⟩]⟩
  decodeVersions b := if b = [] then none else some ⟨[ascii "v1", ascii "v2"]⟩
  decodeApplication b :=
    if b = [] then none else some ⟨ascii "app1", ascii "v1", [], 3, 0, ascii "run.sh"⟩
  decodeUpdate b := if b = [] then none else some ⟨ascii "d1", ascii "v1"⟩
  Sprintf2f _ := ascii "0.00"

/-- The same world with a file system in which no file opens. -/
def noFiles (w : World) : World := { w with Open := fun _ => none }

/-! ## The common shape of the runs -/

/-- The end of every `Apply` once the response is there and the checks are
passed: `Format` is called and its text printed, unless a Humanize fails. -/
def rendered (w : World) (pre : List Event) (r : Response)
    (humanize : GoString → Option GoString) : Run Unit :=
  match w.Format r.Body humanize with
  | none => ⟨pre ++ [.Format r.Body], .error .decode⟩
  | some text => ⟨pre ++ [.Format r.Body, .stdout (text ++ ascii "\n")], .ok ()⟩

/-- The common shape of the seven runs from the request builder on, after the
steps `pre`: build, send, register the close of the body, check the status,
render. `deferFirst` tells whether the close is registered before the status
check (every action but AppDestroy) or after it (AppDestroy). -/
def exchange (w : World) (pre : List Event) (req : Request) (statusOk : Int → Bool)
    (deferFirst : Bool) (humanize : GoString → Option GoString) : Run Unit :=
  match w.Do req with
  | none => ⟨pre ++ [.build req, .Do req none], .error .transport⟩
  | some r =>
    if statusOk r.StatusCode then
      rendered w (pre ++ [.build req, .Do req (some r), .deferClose (.responseBody r)]) r humanize
    else if deferFirst then
      ⟨pre ++ [.build req, .Do req (some r), .deferClose (.responseBody r)],
        .error (.status r.StatusCode)⟩
    else
      ⟨pre ++ [.build req, .Do req (some r)], .error (.status r.StatusCode)⟩

/-! ## Escaped text: the forms the specification and the code speak of -/

/-- The unreserved characters: letters, digits, `-`, `_`, `.`, `~`. -/
def unreserved (b : Byte) : Bool :=
  (97 ≤ b.val && b.val ≤ 122) || (65 ≤ b.val && b.val ≤ 90) || (48 ≤ b.val && b.val ≤ 57) ||
    b == 45 || b == 95 || b == 46 || b == 126

/-- The value of a hex digit (either case), `none` for any other byte. -/
def hexValue (b : Byte) : Option Nat :=
  if 48 ≤ b.val ∧ b.val ≤ 57 then some (b.val - 48)
  else if 65 ≤ b.val ∧ b.val ≤ 70 then some (b.val - 55)
  else if 97 ≤ b.val ∧ b.val ≤ 102 then some (b.val - 87)
  else none

/-- The byte a `%XY` triple stands for. -/
def hexPair (h l : Byte) : Option Byte :=
  match hexValue h, hexValue l with
  | some x, some y => some ⟨(16 * x + y) % 256, Nat.mod_lt _ (by decide)⟩
  | _, _ => none

/-- The text consists only of unreserved characters and `%XY` hex triples,
and of `+` where `plus` allows it; the first argument counts the hex digits
still owed to an open triple. -/
def encodedFrom (plus : Bool) : Nat → GoString → Bool
  | 0, [] => true
  | _ + 1, [] => false
  | 0, c :: rest =>
    if c = 37 then encodedFrom plus 2 rest
    else (unreserved c || (plus && c == 43)) && encodedFrom plus 0 rest
  | n + 1, c :: rest => (hexValue c).isSome && encodedFrom plus n rest

/-- Where a decoder stands in a `%XY` triple: outside one, after the `%`, or
after the first hex digit `h`. -/
inductive Pending where
  | outside
  | afterPercent
  | afterDigit (h : Byte)

/-- The text with each `%XY` triple replaced by its byte and, where `plus`
says so, each `+` by a space; `none` when a `%` is not followed by two hex
digits. -/
def decodeFrom (plus : Bool) : Pending → GoString → Option GoString
  | .outside, [] => some []
  | .afterPercent, [] => none
  | .afterDigit _, [] => none
  | .outside, c :: rest =>
    if c = 37 then decodeFrom plus .afterPercent rest
    else if plus ∧ c = 43 then (decodeFrom plus .outside rest).map (fun t => 32 :: t)
    else (decodeFrom plus .outside rest).map (fun t => c :: t)
  | .afterPercent, h :: rest => decodeFrom plus (.afterDigit h) rest
  | .afterDigit h, l :: rest =>
    match hexPair h l with
    | some b => (decodeFrom plus .outside rest).map (fun t => b :: t)
    | none => none

/-- The decoding from the start of a text. -/
def decodeWith (plus : Bool) (t : GoString) : Option GoString := decodeFrom plus .outside t

/-- Percent-encoded, in the words of the specification: only unreserved
characters and `%XY` triples. -/
def percentEncoded (t : GoString) : Bool := encodedFrom false 0 t

/-- The decoding the specification speaks of: each `%XY` triple replaced by its
byte, nothing else changed. -/
def percentDecode (t : GoString) : Option GoString := decodeWith false t

/-- Query-escaped: only unreserved characters, `+` and `%XY` triples. -/
def queryEncoded (t : GoString) : Bool := encodedFrom true 0 t

/-- The decoding of query-escaped text: each `+` replaced by a space and each
`%XY` triple by its byte. -/
def queryDecode (t : GoString) : Option GoString := decodeWith true t

/-- The path of each action as a function of the texts inserted into it:
the string literals of the source around the two inserted texts. -/
def Action.path : Action → GoString → GoString → GoString
  | .AppList, _, _ => ascii "/v2/apps"
  | .AppVersions, id, _ => ascii "/v2/apps/" ++ id ++ ascii "/versions"
  | .AppShow, id, version => ascii "/v2/apps/" ++ id ++ ascii "/versions/" ++ version
  | .AppCreate, _, _ => ascii "/v2/apps"
  | .AppUpdate, id, _ => ascii "/v2/apps/" ++ id ++ ascii "?force=true"
  | .AppRestart, id, _ => ascii "/v2/apps/" ++ id ++ ascii "/restart?force=true"
  | .AppDestroy, id, _ => ascii "/v2/apps/" ++ id

/-- The fixed template of the path of each action: its path with nothing
inserted. -/
def Action.template (act : Action) : GoString := act.path [] []

/-! ## The seven runs as one table -/

/-- How a run of an action begins, read off the argument list and the file
system: a usage error, a file that does not open, or the steps `pre` followed by
one exchange with the server. -/
inductive Start where
  | usage
  | noFile (name : GoString)
  | go (pre : List Event) (req : Request) (statusOk : Int → Bool) (deferFirst : Bool)

/-- The run a start stands for. -/
def Start.run (w : World) (humanize : GoString → Option GoString) : Start → Run Unit
  | .usage => ⟨[], .error .usage⟩
  | .noFile name => ⟨[.osOpen name], .error .openFile⟩
  | .go pre req statusOk deferFirst => exchange w pre req statusOk deferFirst humanize

/-- The start of a run that opens the file `name` first. -/
def startWithFile (w : World) (name : GoString) (verb : Verb) (path : GoString)
    (statusOk : Int → Bool) : Start :=
  match w.Open name with
  | none => .noFile name
  | some contents =>
    .go [.osOpen name, .deferClose (.file ⟨name, contents⟩)] ⟨verb, path, some ⟨name, contents⟩⟩
      statusOk true

/-- The start of the run of each action on each argument list. -/
def Action.start (w : World) : Action → List GoString → Start
  | .AppList, _ => .go [] ⟨.GET, ascii "/v2/apps", none⟩ (fun _ => true) true
  | .AppVersions, [] => .usage
  | .AppVersions, id :: _ =>
    .go [] ⟨.GET, ascii "/v2/apps/" ++ QueryEscape id ++ ascii "/versions", none⟩ (fun _ => true) true
  | .AppShow, [id, version] =>
    .go [] ⟨.GET, ascii "/v2/apps/" ++ QueryEscape id ++ ascii "/versions/" ++ QueryEscape version,
      none⟩ (fun _ => true) true
  | .AppShow, _ => .usage
  | .AppCreate, [name] =>
    startWithFile w name .POST (ascii "/v2/apps") (fun s => decide (s ≠ 409))
  | .AppCreate, _ => .usage
  | .AppUpdate, [id, name] =>
    startWithFile w name .PUT (ascii "/v2/apps/" ++ QueryEscape id ++ ascii "?force=true")
      (fun s => decide (s = 200))
  | .AppUpdate, _ => .usage
  | .AppRestart, [id] =>
    .go [] ⟨.POST, ascii "/v2/apps/" ++ QueryEscape id ++ ascii "/restart?force=true", none⟩
      (fun _ => true) true
  | .AppRestart, _ => .usage
  | .AppDestroy, [id] =>
    .go [] ⟨.DELETE, ascii "/v2/apps/" ++ QueryEscape id, none⟩ (fun s => decide (s = 200)) false
  | .AppDestroy, _ => .usage

/-! ## The table of the specification: argument counts -/

/-- The argument count the table of the specification requires of each
action. -/
def requiredArgs : Action → Nat
  | .AppList => 0
  | .AppVersions => 1
  | .AppShow => 2
  | .AppCreate => 1
  | .AppUpdate => 2
  | .AppRestart => 1
  | .AppDestroy => 1

/-! ## The table of the specification: rejected status codes -/

/-- The status codes the specification has each action reject: 409 for
Create, anything but 200 for Update and Destroy, none for the others. -/
def rejectsStatus : Action → Int → Bool
  | .AppCreate, s => decide (s = 409)
  | .AppUpdate, s => decide (s ≠ 200)
  | .AppDestroy, s => decide (s ≠ 200)
  | _, _ => false

/-! ## The input convention of the Columnizer -/

/-- The rows of a text in the input convention of the Columnizer: the pieces
between newlines (spec §4.1). -/
def rows (t : GoString) : List GoString := t.splitOn 10

/-- The cells of a row in the input convention of the Columnizer: the pieces
between single spaces (spec §4.1). -/
def cells (row : GoString) : List GoString := row.splitOn 32

/-- The data row of an app: id, version and user separated by single spaces. -/
def AppList.row (app : Application) : GoString :=
  app.ID ++ ascii " " ++ app.Version ++ ascii " " ++ app.User

/-- No field of the app that is printed holds a space or a newline. -/
def Application.plain (app : Application) : Prop :=
  (32 : Byte) ∉ app.ID ∧ (10 : Byte) ∉ app.ID ∧ (32 : Byte) ∉ app.Version ∧
    (10 : Byte) ∉ app.Version ∧ (32 : Byte) ∉ app.User ∧ (10 : Byte) ∉ app.User

instance (app : Application) : Decidable app.plain := by
  unfold Application.plain
  infer_instance

/-! ## The bytes of escaped text -/

/-- The bytes `QueryEscape` can write: the unreserved characters, `+`, `%`
(the hex digits are unreserved). -/
def escapedByte (b : Byte) : Bool := unreserved b || b == 43 || b == 37

/-! # Theorems -/

/-! ## The runs of each action, case by case -/

theorem AppList_Apply_eq (w : World) (args : List GoString) :
    AppList.Apply w args =
      exchange w [] ⟨.GET, ascii "/v2/apps", none⟩ (fun _ => true) true (AppList.Humanize w) := by
  cases hD : w.Do ⟨.GET, ascii "/v2/apps", none⟩ <;>
    simp [AppList.Apply, bind, Run.bind, build, clientDo, emit, format, Println, hD, rendered,
      exchange]
  cases hF : w.Format _ (AppList.Humanize w) <;> simp [hF]

theorem AppVersions_Apply_nil (w : World) :
    AppVersions.Apply w [] = ⟨[], .error .usage⟩ := by
  simp [AppVersions.Apply, bind, Run.bind, Check]

theorem AppVersions_Apply_cons (w : World) (id : GoString) (rest : List GoString) :
    AppVersions.Apply w (id :: rest) =
      exchange w [] ⟨.GET, ascii "/v2/apps/" ++ QueryEscape id ++ ascii "/versions", none⟩
        (fun _ => true) true (AppVersions.Humanize w) := by
  cases hD : w.Do ⟨.GET, ascii "/v2/apps/" ++ QueryEscape id ++ ascii "/versions", none⟩ <;>
    simp [AppVersions.Apply, bind, Run.bind, build, clientDo, emit, format, Println, hD, rendered,
      exchange, Check, index, -List.append_assoc]
  cases hF : w.Format _ (AppVersions.Humanize w) <;> simp [hF]

theorem AppShow_Apply_usage (w : World) (args : List GoString) (h : args.length ≠ 2) :
    AppShow.Apply w args = ⟨[], .error .usage⟩ := by
  simp [AppShow.Apply, bind, Run.bind, Check, h]

theorem AppShow_Apply_pair (w : World) (id version : GoString) :
    AppShow.Apply w [id, version] =
      exchange w []
        ⟨.GET, ascii "/v2/apps/" ++ QueryEscape id ++ ascii "/versions/" ++ QueryEscape version, none⟩
        (fun _ => true) true (AppShow.Humanize w) := by
  cases hD : w.Do
      ⟨.GET, ascii "/v2/apps/" ++ QueryEscape id ++ ascii "/versions/" ++ QueryEscape version, none⟩ <;>
    simp [AppShow.Apply, bind, Run.bind, build, clientDo, emit, format, Println, hD, rendered,
      exchange, Check, index, -List.append_assoc]
  cases hF : w.Format _ (AppShow.Humanize w) <;> simp [hF]

theorem AppCreate_Apply_usage (w : World) (args : List GoString) (h : args.length ≠ 1) :
    AppCreate.Apply w args = ⟨[], .error .usage⟩ := by
  simp [AppCreate.Apply, bind, Run.bind, Check, h]

theorem AppCreate_Apply_noFile (w : World) (name : GoString) (h : w.Open name = none) :
    AppCreate.Apply w [name] = ⟨[.osOpen name], .error .openFile⟩ := by
  simp [AppCreate.Apply, bind, Run.bind, Check, index, osOpen, h]

theorem AppCreate_Apply_file (w : World) (name contents : GoString)
    (h : w.Open name = some contents) :
    AppCreate.Apply w [name] =
      exchange w [.osOpen name, .deferClose (.file ⟨name, contents⟩)]
        ⟨.POST, ascii "/v2/apps", some ⟨name, contents⟩⟩ (fun s => decide (s ≠ 409)) true
        (AppCreate.Humanize w) := by
  cases hD : w.Do ⟨.POST, ascii "/v2/apps", some ⟨name, contents⟩⟩ <;>
    simp [AppCreate.Apply, bind, Run.bind, build, clientDo, emit, format, Println, hD, rendered,
      exchange, Check, index, osOpen, h, -List.append_assoc]
  rename_i r
  by_cases hs : r.StatusCode = 409 <;> simp [hs]
  cases hF : w.Format _ (AppCreate.Humanize w) <;> simp [hF]

theorem AppUpdate_Apply_usage (w : World) (args : List GoString) (h : args.length ≠ 2) :
    AppUpdate.Apply w args = ⟨[], .error .usage⟩ := by
  simp [AppUpdate.Apply, bind, Run.bind, Check, h]

theorem AppUpdate_Apply_noFile (w : World) (id name : GoString) (h : w.Open name = none) :
    AppUpdate.Apply w [id, name] = ⟨[.osOpen name], .error .openFile⟩ := by
  simp [AppUpdate.Apply, bind, Run.bind, Check, index, osOpen, h]

theorem AppUpdate_Apply_file (w : World) (id name contents : GoString)
    (h : w.Open name = some contents) :
    AppUpdate.Apply w [id, name] =
      exchange w [.osOpen name, .deferClose (.file ⟨name, contents⟩)]
        ⟨.PUT, ascii "/v2/apps/" ++ QueryEscape id ++ ascii "?force=true", some ⟨name, contents⟩⟩
        (fun s => decide (s = 200)) true (AppUpdate.Humanize w) := by
  cases hD : w.Do
      ⟨.PUT, ascii "/v2/apps/" ++ QueryEscape id ++ ascii "?force=true", some ⟨name, contents⟩⟩ <;>
    simp [AppUpdate.Apply, bind, Run.bind, build, clientDo, emit, format, Println, hD, rendered,
      exchange, Check, index, osOpen, h, -List.append_assoc]
  rename_i r
  by_cases hs : r.StatusCode = 200 <;> simp [hs]
  cases hF : w.Format _ (AppUpdate.Humanize w) <;> simp [hF]

theorem AppRestart_Apply_usage (w : World) (args : List GoString) (h : args.length ≠ 1) :
    AppRestart.Apply w args = ⟨[], .error .usage⟩ := by
  simp [AppRestart.Apply, bind, Run.bind, Check, h]

theorem AppRestart_Apply_one (w : World) (id : GoString) :
    AppRestart.Apply w [id] =
      exchange w []
        ⟨.POST, ascii "/v2/apps/" ++ QueryEscape id ++ ascii "/restart?force=true", none⟩
        (fun _ => true) true (AppRestart.Humanize w) := by
  cases hD : w.Do
      ⟨.POST, ascii "/v2/apps/" ++ QueryEscape id ++ ascii "/restart?force=true", none⟩ <;>
    simp [AppRestart.Apply, bind, Run.bind, build, clientDo, emit, format, Println, hD, rendered,
      exchange, Check, index, -List.append_assoc]
  cases hF : w.Format _ (AppRestart.Humanize w) <;> simp [hF]

theorem AppDestroy_Apply_usage (w : World) (args : List GoString) (h : args.length ≠ 1) :
    AppDestroy.Apply w args = ⟨[], .error .usage⟩ := by
  simp [AppDestroy.Apply, bind, Run.bind, Check, h]

theorem AppDestroy_Apply_one (w : World) (id : GoString) :
    AppDestroy.Apply w [id] =
      exchange w [] ⟨.DELETE, ascii "/v2/apps/" ++ QueryEscape id, none⟩
        (fun s => decide (s = 200)) false (AppDestroy.Humanize w) := by
  cases hD : w.Do ⟨.DELETE, ascii "/v2/apps/" ++ QueryEscape id, none⟩ <;>
    simp [AppDestroy.Apply, bind, Run.bind, build, clientDo, emit, format, Println, hD, rendered,
      exchange, Check, index, -List.append_assoc]
  rename_i r
  by_cases hs : r.StatusCode = 200 <;> simp [hs]
  cases hF : w.Format _ (AppDestroy.Humanize w) <;> simp [hF]

/-! ## `QueryEscape`, byte by byte -/

set_option maxRecDepth 100000 in
theorem escapeByte_of_keep : ∀ c : Byte, shouldEscape c = false → escapeByte c = [c] := by
  decide

theorem QueryEscape_eq_flatMap (s : GoString) : QueryEscape s = s.flatMap escapeByte := by
  unfold QueryEscape
  split
  · rename_i h
    obtain ⟨h1, h2⟩ := h
    have key : ∀ c ∈ s, shouldEscape c = false := by
      intro c hc
      simp only [spaceCount, hexCount, List.length_eq_zero, List.filter_eq_nil_iff] at h1 h2
      have a := h1 c hc
      have b := h2 c hc
      cases hs : shouldEscape c <;> simp_all
    clear h1 h2
    induction s with
    | nil => rfl
    | cons c t ih =>
      have hc := escapeByte_of_keep c (key c (List.mem_cons_self _ _))
      have ht := ih (fun x hx => key x (List.mem_cons_of_mem _ hx))
      simp only [List.flatMap_cons, hc, List.singleton_append, ← ht]
  · rfl

/-! ## The seven runs as one table -/

theorem Action.Apply_eq_start (act : Action) (w : World) (args : List GoString) :
    act.Apply w args = (act.start w args).run w (act.Humanize w) := by
  cases act
  · exact AppList_Apply_eq w args
  · cases args with
    | nil => exact AppVersions_Apply_nil w
    | cons id rest => exact AppVersions_Apply_cons w id rest
  · rcases args with _ | ⟨a, _ | ⟨b, _ | ⟨c, t⟩⟩⟩
    · exact AppShow_Apply_usage w _ (by simp)
    · exact AppShow_Apply_usage w _ (by simp)
    · exact AppShow_Apply_pair w a b
    · exact AppShow_Apply_usage w _ (by simp)
  · rcases args with _ | ⟨a, _ | ⟨b, t⟩⟩
    · exact AppCreate_Apply_usage w _ (by simp)
    · show AppCreate.Apply w [a] = (startWithFile w a _ _ _).run w _
      cases hO : w.Open a
      · simp only [startWithFile, hO, Start.run]; exact AppCreate_Apply_noFile _ _ hO
      · simp only [startWithFile, hO, Start.run]; exact AppCreate_Apply_file _ _ _ hO
    · exact AppCreate_Apply_usage w _ (by simp)
  · rcases args with _ | ⟨a, _ | ⟨b, _ | ⟨c, t⟩⟩⟩
    · exact AppUpdate_Apply_usage w _ (by simp)
    · exact AppUpdate_Apply_usage w _ (by simp)
    · show AppUpdate.Apply w [a, b] = (startWithFile w b _ _ _).run w _
      cases hO : w.Open b
      · simp only [startWithFile, hO, Start.run]; exact AppUpdate_Apply_noFile _ _ _ hO
      · simp only [startWithFile, hO, Start.run]; exact AppUpdate_Apply_file _ _ _ _ hO
    · exact AppUpdate_Apply_usage w _ (by simp)
  · rcases args with _ | ⟨a, _ | ⟨b, t⟩⟩
    · exact AppRestart_Apply_usage w _ (by simp)
    · exact AppRestart_Apply_one w a
    · exact AppRestart_Apply_usage w _ (by simp)
  · rcases args with _ | ⟨a, _ | ⟨b, t⟩⟩
    · exact AppDestroy_Apply_usage w _ (by simp)
    · exact AppDestroy_Apply_one w a
    · exact AppDestroy_Apply_usage w _ (by simp)

/-! ## Observations on the table -/

theorem builds_append (a b : List Event) : builds (a ++ b) = builds a ++ builds b := by
  induction a with
  | nil => rfl
  | cons e t ih => cases e <;> simp [builds, ih]

theorem sends_append (a b : List Event) : sends (a ++ b) = sends a ++ sends b := by
  induction a with
  | nil => rfl
  | cons e t ih => cases e <;> simp [sends, ih]

theorem stdouts_append (a b : List Event) : stdouts (a ++ b) = stdouts a ++ stdouts b := by
  induction a with
  | nil => rfl
  | cons e t ih => cases e <;> simp [stdouts, ih]

theorem formats_append (a b : List Event) : formats (a ++ b) = formats a ++ formats b := by
  induction a with
  | nil => rfl
  | cons e t ih => cases e <;> simp [formats, ih]

theorem deferred_append (a b : List Event) : deferred (a ++ b) = deferred a ++ deferred b := by
  induction a with
  | nil => rfl
  | cons e t ih => cases e <;> simp [deferred, ih]

theorem exchange_result (w : World) (pre : List Event) (req : Request) (statusOk : Int → Bool)
    (deferFirst : Bool) (humanize : GoString → Option GoString) :
    (exchange w pre req statusOk deferFirst humanize).result =
      match w.Do req with
      | none => .error .transport
      | some r =>
        if statusOk r.StatusCode then
          match w.Format r.Body humanize with
          | none => .error .decode
          | some _ => .ok ()
        else .error (.status r.StatusCode) := by
  unfold exchange rendered
  cases w.Do req with
  | none => rfl
  | some r =>
    by_cases hs : statusOk r.StatusCode = true
    · cases hF : w.Format r.Body humanize <;> simp [hs, hF]
    · cases deferFirst <;> simp [hs]

theorem exchange_builds (w : World) (pre : List Event) (req : Request) (statusOk : Int → Bool)
    (deferFirst : Bool) (humanize : GoString → Option GoString) :
    builds (exchange w pre req statusOk deferFirst humanize).trace = builds pre ++ [req] := by
  unfold exchange rendered
  cases w.Do req with
  | none => simp [builds_append, builds]
  | some r =>
    by_cases hs : statusOk r.StatusCode = true
    · cases hF : w.Format r.Body humanize <;> simp [hs, hF, builds_append, builds]
    · cases deferFirst <;> simp [hs, builds_append, builds]

theorem exchange_sends (w : World) (pre : List Event) (req : Request) (statusOk : Int → Bool)
    (deferFirst : Bool) (humanize : GoString → Option GoString) :
    sends (exchange w pre req statusOk deferFirst humanize).trace = sends pre ++ [req] := by
  unfold exchange rendered
  cases w.Do req with
  | none => simp [sends_append, sends]
  | some r =>
    by_cases hs : statusOk r.StatusCode = true
    · cases hF : w.Format r.Body humanize <;> simp [hs, hF, sends_append, sends]
    · cases deferFirst <;> simp [hs, sends_append, sends]

theorem Start.run_usage_iff (w : World) (humanize : GoString → Option GoString) (st : Start) :
    (st.run w humanize).result = .error .usage ↔ st = .usage := by
  cases st with
  | usage => simp [Start.run]
  | noFile name => simp [Start.run]
  | go pre req statusOk deferFirst =>
    simp only [Start.run, exchange_result, reduceCtorEq, iff_false]
    cases w.Do req with
    | none => simp
    | some r =>
      by_cases hs : statusOk r.StatusCode = true
      · cases hF : w.Format r.Body humanize <;> simp [hs, hF]
      · simp [hs]

theorem Start.run_eq_usage_iff (w : World) (humanize : GoString → Option GoString) (st : Start) :
    st.run w humanize = ⟨[], .error .usage⟩ ↔ st = .usage := by
  constructor
  · intro h
    exact (Start.run_usage_iff w humanize st).1 (by rw [h])
  · rintro rfl
    rfl

theorem startWithFile_ne_usage (w : World) (name : GoString) (verb : Verb) (path : GoString)
    (statusOk : Int → Bool) : startWithFile w name verb path statusOk ≠ .usage := by
  unfold startWithFile
  cases w.Open name <;> simp

/-! ## C1: argument validation -/

theorem Action.start_usage_iff (act : Action) (w : World) (args : List GoString) :
    act.start w args = .usage ↔
      match act with
      | .AppList => False
      | .AppVersions => args.length = 0
      | .AppShow | .AppUpdate => args.length ≠ 2
      | .AppCreate | .AppRestart | .AppDestroy => args.length ≠ 1 := by
  cases act <;> rcases args with _ | ⟨a, _ | ⟨b, _ | ⟨c, t⟩⟩⟩ <;>
    simp [Action.start, startWithFile_ne_usage]

/-- C1, as the code has it: AppShow and AppUpdate end with the usage error
exactly on the argument lists whose length is not 2, AppCreate, AppRestart and
AppDestroy exactly on those whose length is not 1, AppVersions exactly on the
empty list, AppList on none; and a run that ends with the usage error has taken
no step at all: no request was built, none was sent. -/
theorem usage_error_iff (act : Action) (w : World) (args : List GoString) :
    ((act.Apply w args).result = .error .usage ↔
      match act with
      | .AppList => False
      | .AppVersions => args.length = 0
      | .AppShow | .AppUpdate => args.length ≠ 2
      | .AppCreate | .AppRestart | .AppDestroy => args.length ≠ 1) ∧
    ((act.Apply w args).result = .error .usage ↔ act.Apply w args = ⟨[], .error .usage⟩) := by
  rw [Action.Apply_eq_start, Start.run_usage_iff, Start.run_eq_usage_iff]
  exact ⟨Action.start_usage_iff act w args, Iff.rfl⟩

/-- C1 fails on the code: AppList, which requires no argument, runs to the end
on one argument and sends its request; AppVersions, which requires one
argument, does the same on two. -/
theorem usage_error_counterexample :
    [ascii "x"].length ≠ requiredArgs .AppList ∧
    (Action.AppList.Apply (sampleWorld 200 (ascii "[]") Formatter.raw) [ascii "x"]).result
      = .ok () ∧
    sends (Action.AppList.Apply (sampleWorld 200 (ascii "[]") Formatter.raw) [ascii "x"]).trace
      = [⟨.GET, ascii "/v2/apps", none⟩] ∧
    [ascii "app1", ascii "x"].length ≠ requiredArgs .AppVersions ∧
    (Action.AppVersions.Apply (sampleWorld 200 (ascii "[]") Formatter.raw)
      [ascii "app1", ascii "x"]).result = .ok () ∧
    sends (Action.AppVersions.Apply (sampleWorld 200 (ascii "[]") Formatter.raw)
      [ascii "app1", ascii "x"]).trace = [⟨.GET, ascii "/v2/apps/app1/versions", none⟩] := by
  decide

/-! ## C2: the status-code policy -/

theorem Action.start_go (act : Action) (w : World) (args : List GoString) (pre : List Event)
    (req : Request) (statusOk : Int → Bool) (deferFirst : Bool)
    (h : act.start w args = .go pre req statusOk deferFirst) :
    (pre = [] ∨ ∃ f, pre = [.osOpen f.name, .deferClose (.file f)] ∧ req.body = some f) ∧
    (∀ s, statusOk s = !rejectsStatus act s) ∧
    deferFirst = decide (act ≠ .AppDestroy) ∧
    req.path = act.path (QueryEscape (args.getD 0 [])) (QueryEscape (args.getD 1 [])) := by
  cases act <;> rcases args with _ | ⟨a, _ | ⟨b, _ | ⟨c, t⟩⟩⟩ <;>
    simp only [Action.start, Start.go.injEq, reduceCtorEq] at h
  all_goals first
    | (obtain ⟨rfl, rfl, rfl, rfl⟩ := h
       simp [rejectsStatus, Action.path])
    | (unfold startWithFile at h
       split at h
       · simp at h
       · rename_i contents hO
         simp only [Start.go.injEq] at h
         obtain ⟨rfl, rfl, rfl, rfl⟩ := h
         refine ⟨Or.inr ⟨⟨_, contents⟩, rfl, rfl⟩, ?_, ?_, ?_⟩ <;> simp [rejectsStatus, Action.path])

theorem exchange_of_Do_mem (w : World) (pre : List Event) (req req0 : Request) (resp : Response)
    (statusOk : Int → Bool) (deferFirst : Bool) (humanize : GoString → Option GoString)
    (hpre : pre = [] ∨ ∃ f, pre = [.osOpen f.name, .deferClose (.file f)] ∧ req0.body = some f)
    (h : Event.Do req (some resp) ∈ (exchange w pre req0 statusOk deferFirst humanize).trace) :
    req = req0 ∧ w.Do req0 = some resp := by
  unfold exchange rendered at h
  cases hD : w.Do req0 with
  | none =>
    rw [hD] at h
    rcases hpre with rfl | ⟨f, rfl, -⟩ <;> simp at h
  | some r =>
    rw [hD] at h
    by_cases hs : statusOk r.StatusCode = true
    · cases hF : w.Format r.Body humanize <;>
        rcases hpre with rfl | ⟨f, rfl, -⟩ <;> simp [hs, hF] at h <;>
        simp [h]
    · cases deferFirst <;> rcases hpre with rfl | ⟨f, rfl, -⟩ <;> simp [hs] at h <;> simp [h]

theorem Action.go_of_Do_mem (act : Action) (w : World) (args : List GoString) (req : Request)
    (resp : Response) (h : Event.Do req (some resp) ∈ (act.Apply w args).trace) :
    ∃ pre, (pre = [] ∨ ∃ f, pre = [.osOpen f.name, .deferClose (.file f)] ∧ req.body = some f) ∧
      w.Do req = some resp ∧
      req.path = act.path (QueryEscape (args.getD 0 [])) (QueryEscape (args.getD 1 [])) ∧
      act.Apply w args =
        exchange w pre req (fun s => !rejectsStatus act s) (decide (act ≠ .AppDestroy))
          (act.Humanize w) := by
  rw [Action.Apply_eq_start] at h ⊢
  cases hst : act.start w args with
  | usage => rw [hst] at h; simp [Start.run] at h
  | noFile name => rw [hst] at h; simp [Start.run] at h
  | go pre req0 statusOk deferFirst =>
    rw [hst] at h
    obtain ⟨hpre, hok, hdf, hpath⟩ := Action.start_go act w args pre req0 statusOk deferFirst hst
    obtain ⟨rfl, hD⟩ := exchange_of_Do_mem w pre req req0 resp statusOk deferFirst _ hpre h
    have hfun : statusOk = fun s => !rejectsStatus act s := funext hok
    subst hfun hdf
    exact ⟨pre, hpre, hD, hpath, rfl⟩

theorem exchange_some (w : World) (pre : List Event) (req : Request) (r : Response)
    (statusOk : Int → Bool) (deferFirst : Bool) (humanize : GoString → Option GoString)
    (hD : w.Do req = some r) :
    exchange w pre req statusOk deferFirst humanize =
      if statusOk r.StatusCode then
        rendered w (pre ++ [.build req, .Do req (some r), .deferClose (.responseBody r)]) r humanize
      else if deferFirst then
        ⟨pre ++ [.build req, .Do req (some r), .deferClose (.responseBody r)],
          .error (.status r.StatusCode)⟩
      else
        ⟨pre ++ [.build req, .Do req (some r)], .error (.status r.StatusCode)⟩ := by
  simp [exchange, hD]

theorem statusTable (act : Action) (w : World) (args : List GoString) (req : Request)
    (resp : Response) (h : Event.Do req (some resp) ∈ (act.Apply w args).trace) :
    ((act.Apply w args).result = .error (.status resp.StatusCode) ↔
      rejectsStatus act resp.StatusCode = true) ∧
    (formats (act.Apply w args).trace = [resp.Body] ↔
      rejectsStatus act resp.StatusCode = false) ∧
    (formats (act.Apply w args).trace = [] ↔ rejectsStatus act resp.StatusCode = true) ∧
    ((act.Apply w args).result = .ok () ↔
      rejectsStatus act resp.StatusCode = false ∧
        (w.Format resp.Body (act.Humanize w)).isSome = true) ∧
    ((act.Apply w args).result = .error .decode ↔
      rejectsStatus act resp.StatusCode = false ∧
        w.Format resp.Body (act.Humanize w) = none) := by
  obtain ⟨pre, hpre, hD, -, hrun⟩ := Action.go_of_Do_mem act w args req resp h
  rw [hrun, exchange_some _ _ _ _ _ _ _ hD]
  cases hrej : rejectsStatus act resp.StatusCode
  · cases hF : w.Format resp.Body (act.Humanize w) <;>
      rcases hpre with rfl | ⟨f, rfl, -⟩ <;> simp [rendered, hF, formats]
  · cases hdf : decide (act ≠ .AppDestroy) <;>
      rcases hpre with rfl | ⟨f, rfl, -⟩ <;> simp [formats]

/-- C2, as the code has it: in a run in which the transport returned a
response with status code `s`, AppCreate ends at its status check exactly when
`s = 409`, AppUpdate and AppDestroy exactly when `s` is not 200 (so AppDestroy
does on 204), and AppList, AppVersions, AppShow and AppRestart never; a run
that does not end at the status check goes on to call `Format` on the response
body, once; a run that ends at the status check never calls `Format`. The run
fails exactly when it ends at the status check or a check inside `Format` (the
decode check of the Humanize) fails: AppCreate fails iff `s = 409` or `Format`
fails, AppUpdate and AppDestroy iff `s` is not 200 or `Format` fails, the four
others iff `Format` fails. -/
theorem status_policy (act : Action) (w : World) (args : List GoString) (req : Request)
    (resp : Response) (h : Event.Do req (some resp) ∈ (act.Apply w args).trace) :
    (act = .AppCreate →
      ((act.Apply w args).result = .error (.status resp.StatusCode) ↔ resp.StatusCode = 409)) ∧
    (act = .AppUpdate ∨ act = .AppDestroy →
      ((act.Apply w args).result = .error (.status resp.StatusCode) ↔ resp.StatusCode ≠ 200)) ∧
    (act = .AppList ∨ act = .AppVersions ∨ act = .AppShow ∨ act = .AppRestart →
      (act.Apply w args).result ≠ .error (.status resp.StatusCode) ∧
        formats (act.Apply w args).trace = [resp.Body]) ∧
    ((act.Apply w args).result ≠ .error (.status resp.StatusCode) →
      formats (act.Apply w args).trace = [resp.Body] ∧
        ((act.Apply w args).result = .ok () ↔
          (w.Format resp.Body (act.Humanize w)).isSome = true)) ∧
    ((act.Apply w args).result = .error (.status resp.StatusCode) →
      formats (act.Apply w args).trace = []) ∧
    (act = .AppCreate →
      ((act.Apply w args).result ≠ .ok () ↔
        resp.StatusCode = 409 ∨ w.Format resp.Body (act.Humanize w) = none)) ∧
    (act = .AppUpdate ∨ act = .AppDestroy →
      ((act.Apply w args).result ≠ .ok () ↔
        resp.StatusCode ≠ 200 ∨ w.Format resp.Body (act.Humanize w) = none)) ∧
    (act = .AppList ∨ act = .AppVersions ∨ act = .AppShow ∨ act = .AppRestart →
      ((act.Apply w args).result ≠ .ok () ↔ w.Format resp.Body (act.Humanize w) = none)) ∧
    ((act.Apply w args).result ≠ .ok () →
      (act.Apply w args).result = .error (.status resp.StatusCode) ∨
        (act.Apply w args).result = .error .decode) := by
  obtain ⟨h1, h2, h3, h4, h5⟩ := statusTable act w args req resp h
  have key : (act.Apply w args).result ≠ .ok () ↔
      rejectsStatus act resp.StatusCode = true ∨ w.Format resp.Body (act.Humanize w) = none := by
    rw [Ne, h4]
    cases hr : rejectsStatus act resp.StatusCode <;>
      cases hF : w.Format resp.Body (act.Humanize w) <;> simp
  refine ⟨?_, ?_, ?_, ?_, ?_, ?_, ?_, ?_, ?_⟩
  · rintro rfl
    rw [h1]; simp [rejectsStatus]
  · rintro (rfl | rfl) <;> (rw [h1]; simp [rejectsStatus])
  · rintro (rfl | rfl | rfl | rfl) <;>
      exact ⟨fun he => by simpa [rejectsStatus] using h1.1 he, h2.2 (by simp [rejectsStatus])⟩
  · intro hne
    have hrej : rejectsStatus act resp.StatusCode = false := by
      cases hr : rejectsStatus act resp.StatusCode
      · rfl
      · exact absurd (h1.2 hr) hne
    exact ⟨h2.2 hrej, by rw [h4]; simp [hrej]⟩
  · intro he
    exact h3.2 (h1.1 he)
  · rintro rfl
    rw [key]; simp [rejectsStatus]
  · rintro (rfl | rfl) <;> (rw [key]; simp [rejectsStatus])
  · rintro (rfl | rfl | rfl | rfl) <;> (rw [key]; simp [rejectsStatus])
  · intro hne
    rcases key.1 hne with hr | hF
    · exact Or.inl (h1.2 hr)
    · cases hr : rejectsStatus act resp.StatusCode
      · exact Or.inr (h5.2 ⟨hr, hF⟩)
      · exact Or.inl (h1.2 hr)

/-- C2 at concrete runs: AppCreate against a server answering 409 ends at its
status check; AppCreate against a server answering 200 with a body that does
not decode fails although the status is not 409. -/
theorem status_policy_witness :
    Event.Do ⟨.POST, ascii "/v2/apps", some ⟨ascii "app.json", ascii "\x7b\x7d"⟩⟩
        (some ⟨409, ascii "x"⟩) ∈
      (Action.AppCreate.Apply (sampleWorld 409 (ascii "x") Formatter.raw) [ascii "app.json"]).trace ∧
    ((Action.AppCreate.Apply (sampleWorld 409 (ascii "x") Formatter.raw)
        [ascii "app.json"]).result = .error (.status 409) ↔ (409 : Int) = 409) ∧
    Event.Do ⟨.POST, ascii "/v2/apps", some ⟨ascii "app.json", ascii "\x7b\x7d"⟩⟩
        (some ⟨200, []⟩) ∈
      (Action.AppCreate.Apply (sampleWorld 200 [] Formatter.humanize) [ascii "app.json"]).trace ∧
    ((Action.AppCreate.Apply (sampleWorld 200 [] Formatter.humanize)
        [ascii "app.json"]).result ≠ .ok () ↔
      (200 : Int) = 409 ∨
        (sampleWorld 200 [] Formatter.humanize).Format []
          (Action.AppCreate.Humanize (sampleWorld 200 [] Formatter.humanize)) = none) :=
  ⟨by decide,
    (status_policy .AppCreate (sampleWorld 409 (ascii "x") Formatter.raw) [ascii "app.json"]
      ⟨.POST, ascii "/v2/apps", some ⟨ascii "app.json", ascii "\x7b\x7d"⟩⟩ ⟨409, ascii "x"⟩
      (by decide)).1 rfl,
    by decide,
    (status_policy .AppCreate (sampleWorld 200 [] Formatter.humanize) [ascii "app.json"]
      ⟨.POST, ascii "/v2/apps", some ⟨ascii "app.json", ascii "\x7b\x7d"⟩⟩ ⟨200, []⟩
      (by decide)).2.2.2.2.2.1 rfl⟩

/-- C2 fails on the code: against a server answering 200 with a body that does
not decode, in humanize mode, the argument check passes, the transport returns
the response, the status is neither 409 nor other than 200, and yet AppCreate
and AppUpdate fail, at the decode check of their Humanize; AppList, with no
status check at all, fails there too. -/
theorem status_policy_counterexample :
    (Event.Do ⟨.POST, ascii "/v2/apps", some ⟨ascii "app.json", ascii "\x7b\x7d"⟩⟩
        (some ⟨200, []⟩) ∈
      (Action.AppCreate.Apply (sampleWorld 200 [] Formatter.humanize) [ascii "app.json"]).trace ∧
      (200 : Int) ≠ 409 ∧
      (Action.AppCreate.Apply (sampleWorld 200 [] Formatter.humanize)
        [ascii "app.json"]).result = .error .decode) ∧
    (Event.Do ⟨.PUT, ascii "/v2/apps/app1?force=true",
        some ⟨ascii "app.json", ascii "\x7b\x7d"⟩⟩ (some ⟨200, []⟩) ∈
      (Action.AppUpdate.Apply (sampleWorld 200 [] Formatter.humanize)
        [ascii "app1", ascii "app.json"]).trace ∧
      (Action.AppUpdate.Apply (sampleWorld 200 [] Formatter.humanize)
        [ascii "app1", ascii "app.json"]).result = .error .decode) ∧
    (Event.Do ⟨.GET, ascii "/v2/apps", none⟩ (some ⟨200, []⟩) ∈
      (Action.AppList.Apply (sampleWorld 200 [] Formatter.humanize) []).trace ∧
      (Action.AppList.Apply (sampleWorld 200 [] Formatter.humanize) []).result =
        .error .decode) := by
  decide

/-! ## C7: what reaches standard output -/

theorem Start.run_stdout (w : World) (humanize : GoString → Option GoString) (st : Start)
    (hpre : ∀ pre req statusOk deferFirst, st = .go pre req statusOk deferFirst →
      pre = [] ∨ ∃ f, pre = [.osOpen f.name, .deferClose (.file f)] ∧ req.body = some f) :
    ((st.run w humanize).result = .ok () →
      ∃ req resp text, Event.Do req (some resp) ∈ (st.run w humanize).trace ∧
        w.Format resp.Body humanize = some text ∧
        stdouts (st.run w humanize).trace = [text ++ ascii "\n"]) ∧
    ((st.run w humanize).result ≠ .ok () → stdouts (st.run w humanize).trace = []) := by
  cases st with
  | usage => simp [Start.run, stdouts]
  | noFile name => simp [Start.run, stdouts]
  | go pre req statusOk deferFirst =>
    have hp := hpre pre req statusOk deferFirst rfl
    simp only [Start.run]
    cases hD : w.Do req with
    | none =>
      rcases hp with rfl | ⟨f, rfl, -⟩ <;> simp [exchange, hD, stdouts]
    | some r =>
      rw [exchange_some _ _ _ _ _ _ _ hD]
      by_cases hs : statusOk r.StatusCode = true
      · cases hF : w.Format r.Body humanize with
        | none => rcases hp with rfl | ⟨f, rfl, -⟩ <;> simp [hs, rendered, hF, stdouts]
        | some text =>
          refine ⟨fun _ => ⟨req, r, text, ?_, hF, ?_⟩, ?_⟩ <;>
            rcases hp with rfl | ⟨f, rfl, -⟩ <;> simp [hs, rendered, hF, stdouts]
      · cases deferFirst <;> rcases hp with rfl | ⟨f, rfl, -⟩ <;> simp [hs, stdouts]

/-- C7: a run of any action that ends well (no check failed) has written to
standard output exactly once, and the text written is what `Format` returned
for the response body and the Humanize of that action, followed by a newline;
a run in which a check fails (usage, file open, transport, status, or a check
inside `Format`) has written nothing to standard output. -/
theorem stdout_exactly_once (act : Action) (w : World) (args : List GoString) :
    ((act.Apply w args).result = .ok () →
      ∃ req resp text, Event.Do req (some resp) ∈ (act.Apply w args).trace ∧
        w.Format resp.Body (act.Humanize w) = some text ∧
        stdouts (act.Apply w args).trace = [text ++ ascii "\n"]) ∧
    ((act.Apply w args).result ≠ .ok () → stdouts (act.Apply w args).trace = []) := by
  rw [Action.Apply_eq_start]
  exact Start.run_stdout w (act.Humanize w) (act.start w args)
    (fun pre req statusOk deferFirst h => (Action.start_go act w args pre req statusOk deferFirst h).1)

/-- C7 at concrete runs: AppDestroy against a server answering 200 prints once,
AppCreate against a server answering 409 prints nothing. -/
theorem stdout_exactly_once_witness :
    ((Action.AppDestroy.Apply (sampleWorld 200 (ascii "x") Formatter.humanize)
        [ascii "app1"]).result = .ok () ∧
      stdouts (Action.AppDestroy.Apply (sampleWorld 200 (ascii "x") Formatter.humanize)
        [ascii "app1"]).trace = [ascii "DESTROYED\n"] ∧
      ∃ req resp text,
        Event.Do req (some resp) ∈ (Action.AppDestroy.Apply
          (sampleWorld 200 (ascii "x") Formatter.humanize) [ascii "app1"]).trace ∧
        (sampleWorld 200 (ascii "x") Formatter.humanize).Format resp.Body
          (Action.AppDestroy.Humanize (sampleWorld 200 (ascii "x") Formatter.humanize)) = some text ∧
        stdouts (Action.AppDestroy.Apply (sampleWorld 200 (ascii "x") Formatter.humanize)
          [ascii "app1"]).trace = [text ++ ascii "\n"]) ∧
    ((Action.AppCreate.Apply (sampleWorld 409 (ascii "x") Formatter.humanize)
        [ascii "app.json"]).result ≠ .ok () ∧
      stdouts (Action.AppCreate.Apply (sampleWorld 409 (ascii "x") Formatter.humanize)
        [ascii "app.json"]).trace = []) :=
  ⟨⟨by decide, by decide,
      (stdout_exactly_once .AppDestroy (sampleWorld 200 (ascii "x") Formatter.humanize)
        [ascii "app1"]).1 (by decide)⟩,
    ⟨by decide,
      (stdout_exactly_once .AppCreate (sampleWorld 409 (ascii "x") Formatter.humanize)
        [ascii "app.json"]).2 (by decide)⟩⟩

/-! ## C9: one request per run -/

/-- C9: a run of any action sends at most one request through the client and
builds at most one; it sends exactly one exactly when the argument check of the
action passes and, for AppCreate and AppUpdate, the local file opens; and the
request sent is the one built. -/
theorem one_request (act : Action) (w : World) (args : List GoString) :
    (sends (act.Apply w args).trace).length ≤ 1 ∧
    (builds (act.Apply w args).trace).length ≤ 1 ∧
    sends (act.Apply w args).trace = builds (act.Apply w args).trace ∧
    ((sends (act.Apply w args).trace).length = 1 ↔
      match act with
      | .AppList => True
      | .AppVersions => args.length > 0
      | .AppShow => args.length = 2
      | .AppRestart | .AppDestroy => args.length = 1
      | .AppCreate => ∃ name contents, args = [name] ∧ w.Open name = some contents
      | .AppUpdate => ∃ id name contents, args = [id, name] ∧ w.Open name = some contents) := by
  rw [Action.Apply_eq_start]
  cases act <;> rcases args with _ | ⟨a, _ | ⟨b, _ | ⟨c, t⟩⟩⟩ <;>
    simp only [Action.start, startWithFile] <;>
    first
    | (simp [Start.run, exchange_sends, exchange_builds, sends, builds]; done)
    | (split <;> rename_i hO <;>
        simp [Start.run, exchange_sends, exchange_builds, sends, builds, hO] <;>
        exact ⟨_, _, ⟨rfl, rfl⟩, _, hO⟩)

/-! ## C8: when the closes are registered -/

theorem Action.start_go_file (act : Action) (w : World) (args : List GoString) (pre : List Event)
    (req : Request) (statusOk : Int → Bool) (deferFirst : Bool)
    (h : act.start w args = .go pre req statusOk deferFirst) (f : File) (hf : req.body = some f) :
    pre = [.osOpen f.name, .deferClose (.file f)] := by
  cases act <;> rcases args with _ | ⟨a, _ | ⟨b, _ | ⟨c, t⟩⟩⟩ <;>
    simp only [Action.start, Start.go.injEq, reduceCtorEq] at h
  all_goals first
    | (obtain ⟨rfl, rfl, rfl, rfl⟩ := h
       simp at hf)
    | (unfold startWithFile at h
       split at h
       · simp at h
       · simp only [Start.go.injEq] at h
         obtain ⟨rfl, rfl, rfl, rfl⟩ := h
         simp only [Option.some.injEq] at hf
         subst hf
         rfl)

/-- What the code does guarantee of C8: in a run of any action but AppDestroy
in which the transport returned a response, the close of the response body is
registered, whatever the status and however the run ends; in a run of
AppDestroy it is registered exactly when the status is 200; and a request that
carries a file is built only after the close of that file was registered. -/
theorem close_registered (act : Action) (w : World) (args : List GoString) (req : Request)
    (resp : Response) (h : Event.Do req (some resp) ∈ (act.Apply w args).trace) :
    (act ≠ .AppDestroy → Resource.responseBody resp ∈ deferred (act.Apply w args).trace) ∧
    (act = .AppDestroy →
      (Resource.responseBody resp ∈ deferred (act.Apply w args).trace ↔ resp.StatusCode = 200)) ∧
    (∀ f, req.body = some f →
      ∃ rest, (act.Apply w args).trace =
        [.osOpen f.name, .deferClose (.file f), .build req] ++ rest) := by
  have hfile : ∀ f, req.body = some f →
      ∃ rest, (act.Apply w args).trace =
        [.osOpen f.name, .deferClose (.file f), .build req] ++ rest := by
    intro f hf
    have h2 := h
    rw [Action.Apply_eq_start] at h2 ⊢
    cases hst : act.start w args with
    | usage => rw [hst] at h2; simp [Start.run] at h2
    | noFile name => rw [hst] at h2; simp [Start.run] at h2
    | go pre req0 statusOk deferFirst =>
      rw [hst] at h2
      obtain ⟨hpre, -, -, -⟩ := Action.start_go act w args pre req0 statusOk deferFirst hst
      obtain ⟨rfl, hD⟩ := exchange_of_Do_mem w pre req req0 resp statusOk deferFirst _ hpre h2
      have hp := Action.start_go_file act w args pre req statusOk deferFirst hst f hf
      subst hp
      simp only [Start.run, exchange_some _ _ _ _ _ _ _ hD, rendered]
      by_cases hs : statusOk resp.StatusCode = true
      · cases hF : w.Format resp.Body (act.Humanize w) <;> simp [hs]
      · cases deferFirst <;> simp [hs]
  obtain ⟨pre, hpre, hD, -, hrun⟩ := Action.go_of_Do_mem act w args req resp h
  refine ⟨?_, ?_, hfile⟩
  · intro hne
    rw [hrun, exchange_some _ _ _ _ _ _ _ hD]
    cases hrej : rejectsStatus act resp.StatusCode
    · cases hF : w.Format resp.Body (act.Humanize w) <;>
        rcases hpre with rfl | ⟨f, rfl, -⟩ <;> simp [rendered, hF, deferred]
    · rcases hpre with rfl | ⟨f, rfl, -⟩ <;> simp [hne, deferred]
  · rintro rfl
    rw [hrun, exchange_some _ _ _ _ _ _ _ hD]
    by_cases hs : resp.StatusCode = 200
    · cases hF : w.Format resp.Body (Action.AppDestroy.Humanize w) <;>
        rcases hpre with rfl | ⟨f, rfl, -⟩ <;> simp [rendered, hF, deferred, rejectsStatus, hs]
    · rcases hpre with rfl | ⟨f, rfl, -⟩ <;> simp [deferred, rejectsStatus, hs]

/-- The guarantee at a concrete run: AppUpdate against a server answering 500. -/
theorem close_registered_witness :
    Event.Do ⟨.PUT, ascii "/v2/apps/app1?force=true", some ⟨ascii "app.json", ascii "\x7b\x7d"⟩⟩
        (some ⟨500, ascii "x"⟩) ∈
      (Action.AppUpdate.Apply (sampleWorld 500 (ascii "x") Formatter.raw)
        [ascii "app1", ascii "app.json"]).trace ∧
    Resource.responseBody ⟨500, ascii "x"⟩ ∈
      deferred (Action.AppUpdate.Apply (sampleWorld 500 (ascii "x") Formatter.raw)
        [ascii "app1", ascii "app.json"]).trace :=
  ⟨by decide,
    (close_registered .AppUpdate (sampleWorld 500 (ascii "x") Formatter.raw)
      [ascii "app1", ascii "app.json"]
      ⟨.PUT, ascii "/v2/apps/app1?force=true", some ⟨ascii "app.json", ascii "\x7b\x7d"⟩⟩
      ⟨500, ascii "x"⟩ (by decide)).1 (by decide)⟩

/-- C8 fails on AppDestroy: against a server answering 204 the run obtains the
response and ends at the status check, and no close of the response body has
been registered by then; the `defer response.Body.Close()` of AppDestroy comes
after its status check. -/
theorem destroy_close_not_registered :
    (Action.AppDestroy.Apply (sampleWorld 204 (ascii "x") Formatter.raw) [ascii "app1"]).trace =
      [.build ⟨.DELETE, ascii "/v2/apps/app1", none⟩,
        .Do ⟨.DELETE, ascii "/v2/apps/app1", none⟩ (some ⟨204, ascii "x"⟩)] ∧
    (Action.AppDestroy.Apply (sampleWorld 204 (ascii "x") Formatter.raw) [ascii "app1"]).result =
      .error (.status 204) ∧
    deferred (Action.AppDestroy.Apply (sampleWorld 204 (ascii "x") Formatter.raw)
      [ascii "app1"]).trace = [] ∧
    Resource.responseBody ⟨409, ascii "x"⟩ ∈
      deferred (Action.AppCreate.Apply (sampleWorld 409 (ascii "x") Formatter.raw)
        [ascii "app.json"]).trace := by
  decide

/-! ## C4: the request each action builds -/

/-- C4, as the code has it: on a valid argument list each action builds exactly
one request, with the verb and the body of the table and the path of the table
under `/v2`, the inserted texts being the query-escaped arguments: AppList GET
`/v2/apps`; AppVersions GET `/v2/apps/{id}/versions`; AppShow GET
`/v2/apps/{id}/versions/{version}`; AppCreate, when its file opens, POST
`/v2/apps` with the opened file as body; AppUpdate, when its file opens, PUT
`/v2/apps/{id}?force=true` with the opened file as body; AppRestart POST
`/v2/apps/{id}/restart?force=true` with no body; AppDestroy DELETE
`/v2/apps/{id}`. Only the conjuncts of AppCreate and AppUpdate depend on the
file system. -/
theorem request_table (w : World) (args rest : List GoString)
    (id version name contents : GoString) :
    builds (Action.AppList.Apply w args).trace = [⟨.GET, ascii "/v2/apps", none⟩] ∧
    builds (Action.AppVersions.Apply w (id :: rest)).trace =
      [⟨.GET, ascii "/v2/apps/" ++ QueryEscape id ++ ascii "/versions", none⟩] ∧
    builds (Action.AppShow.Apply w [id, version]).trace =
      [⟨.GET, ascii "/v2/apps/" ++ QueryEscape id ++ ascii "/versions/" ++ QueryEscape version,
        none⟩] ∧
    (w.Open name = some contents →
      builds (Action.AppCreate.Apply w [name]).trace =
        [⟨.POST, ascii "/v2/apps", some ⟨name, contents⟩⟩]) ∧
    (w.Open name = some contents →
      builds (Action.AppUpdate.Apply w [id, name]).trace =
        [⟨.PUT, ascii "/v2/apps/" ++ QueryEscape id ++ ascii "?force=true",
          some ⟨name, contents⟩⟩]) ∧
    builds (Action.AppRestart.Apply w [id]).trace =
      [⟨.POST, ascii "/v2/apps/" ++ QueryEscape id ++ ascii "/restart?force=true", none⟩] ∧
    builds (Action.AppDestroy.Apply w [id]).trace =
      [⟨.DELETE, ascii "/v2/apps/" ++ QueryEscape id, none⟩] := by
  refine ⟨?_, ?_, ?_, ?_, ?_, ?_, ?_⟩
  · simp only [Action.Apply_eq_start, Action.start, Start.run, exchange_builds]
    simp [builds]
  · simp only [Action.Apply_eq_start, Action.start, Start.run, exchange_builds]
    simp [builds]
  · simp only [Action.Apply_eq_start, Action.start, Start.run, exchange_builds]
    simp [builds]
  · intro hO
    simp only [Action.Apply_eq_start, Action.start, startWithFile, hO, Start.run, exchange_builds]
    simp [builds]
  · intro hO
    simp only [Action.Apply_eq_start, Action.start, startWithFile, hO, Start.run, exchange_builds]
    simp [builds]
  · simp only [Action.Apply_eq_start, Action.start, Start.run, exchange_builds]
    simp [builds]
  · simp only [Action.Apply_eq_start, Action.start, Start.run, exchange_builds]
    simp [builds]

/-- C4 at concrete worlds: where the file `app.json` opens, AppCreate and
AppUpdate build their requests with the file as body; where no file opens at
all, AppList and AppDestroy build theirs all the same. -/
theorem request_table_witness :
    (sampleWorld 200 (ascii "x") Formatter.raw).Open (ascii "app.json") =
      some (ascii "\x7b\x7d") ∧
    builds (Action.AppCreate.Apply (sampleWorld 200 (ascii "x") Formatter.raw)
        [ascii "app.json"]).trace =
      [⟨.POST, ascii "/v2/apps", some ⟨ascii "app.json", ascii "\x7b\x7d"⟩⟩] ∧
    builds (Action.AppUpdate.Apply (sampleWorld 200 (ascii "x") Formatter.raw)
        [ascii "my app", ascii "app.json"]).trace =
      [⟨.PUT, ascii "/v2/apps/" ++ QueryEscape (ascii "my app") ++ ascii "?force=true",
        some ⟨ascii "app.json", ascii "\x7b\x7d"⟩⟩] ∧
    (noFiles (sampleWorld 200 (ascii "x") Formatter.raw)).Open (ascii "app.json") = none ∧
    builds (Action.AppList.Apply (noFiles (sampleWorld 200 (ascii "x") Formatter.raw)) []).trace =
      [⟨.GET, ascii "/v2/apps", none⟩] ∧
    builds (Action.AppDestroy.Apply (noFiles (sampleWorld 200 (ascii "x") Formatter.raw))
        [ascii "my app"]).trace =
      [⟨.DELETE, ascii "/v2/apps/" ++ QueryEscape (ascii "my app"), none⟩] :=
  ⟨by decide,
    (request_table (sampleWorld 200 (ascii "x") Formatter.raw) [] [] (ascii "my app") []
      (ascii "app.json") (ascii "\x7b\x7d")).2.2.2.1 (by decide),
    (request_table (sampleWorld 200 (ascii "x") Formatter.raw) [] [] (ascii "my app") []
      (ascii "app.json") (ascii "\x7b\x7d")).2.2.2.2.1 (by decide),
    by decide,
    (request_table (noFiles (sampleWorld 200 (ascii "x") Formatter.raw)) [] [] (ascii "my app") []
      (ascii "app.json") (ascii "\x7b\x7d")).1,
    (request_table (noFiles (sampleWorld 200 (ascii "x") Formatter.raw)) [] [] (ascii "my app") []
      (ascii "app.json") (ascii "\x7b\x7d")).2.2.2.2.2.2⟩

/-- C4 fails on the code: the request AppList builds has the path `/v2/apps`,
not the path `/apps` of the table. -/
theorem request_table_counterexample :
    builds (Action.AppList.Apply (sampleWorld 200 (ascii "x") Formatter.raw) []).trace =
      [⟨.GET, ascii "/v2/apps", none⟩] ∧
    builds (Action.AppList.Apply (sampleWorld 200 (ascii "x") Formatter.raw) []).trace ≠
      [⟨.GET, ascii "/apps", none⟩] := by
  decide

/-! ## C5: the rendering of AppVersions -/

theorem foldl_append_flatMap {α : Type} (f : α → GoString) (xs : List α) (acc : GoString) :
    xs.foldl (fun b x => b ++ f x) acc = acc ++ xs.flatMap f := by
  induction xs generalizing acc with
  | nil => simp
  | cons x t ih => simp [ih]

/-- C5: `AppVersions.Humanize` decodes the body and, for the decoded version
list `[v1, ..., vn]` (`n` may be 0), returns exactly `VERSIONS\n` followed by
`vi ++ "\n"` for each `i` in payload order, nothing padded or changed; for the
version list `["v1", "v2"]` that is `VERSIONS\nv1\nv2\n`. -/
theorem versions_humanize :
    (∀ (w : World) (body : GoString),
      AppVersions.Humanize w body = (w.decodeVersions body).map AppVersions.render) ∧
    (∀ vs : List GoString,
      AppVersions.render ⟨vs⟩ = ascii "VERSIONS\n" ++ vs.flatMap (fun v => v ++ ascii "\n")) ∧
    AppVersions.render ⟨[]⟩ = ascii "VERSIONS\n" ∧
    AppVersions.render ⟨[ascii "v1", ascii "v2"]⟩ = ascii "VERSIONS\nv1\nv2\n" := by
  refine ⟨?_, ?_, by decide, by decide⟩
  · intro w body
    cases h : w.decodeVersions body <;> simp [AppVersions.Humanize, h]
  · intro vs
    have h := foldl_append_flatMap (fun v => v ++ ascii "\n") vs (ascii "VERSIONS\n")
    simpa [AppVersions.render, List.append_assoc] using h

/-! ## C6: the rendering of AppList -/

theorem AppList.text_eq (apps : List Application) :
    AppList.text ⟨apps⟩ =
      ascii "APP VERSION USER\n" ++ apps.flatMap (fun app => AppList.row app ++ ascii "\n") := by
  have h := foldl_append_flatMap (fun app : Application => AppList.row app ++ ascii "\n") apps []
  simp only [AppList.text, AppList.row, List.append_assoc, List.nil_append] at h ⊢
  rw [h]

theorem splitOn_first (xs : GoString) (sep : Byte) (h : sep ∉ xs) (rest : GoString) :
    (xs ++ sep :: rest).splitOn sep = xs :: rest.splitOn sep := by
  unfold List.splitOn
  apply List.splitOnP_first
  · intro x hx hp
    have : x = sep := by simpa using hp
    exact h (this ▸ hx)
  · simp

theorem splitOn_single (xs : GoString) (sep : Byte) (h : sep ∉ xs) : xs.splitOn sep = [xs] := by
  unfold List.splitOn
  apply List.splitOnP_eq_single
  intro x hx hp
  have : x = sep := by simpa using hp
  exact h (this ▸ hx)

theorem rows_of_lines (apps : List Application) (h : ∀ app ∈ apps, app.plain) :
    rows (apps.flatMap (fun app => AppList.row app ++ ascii "\n")) =
      apps.map AppList.row ++ [[]] := by
  induction apps with
  | nil => rfl
  | cons a t ih =>
    have ha := h a (List.mem_cons_self _ _)
    have hrow : (10 : Byte) ∉ AppList.row a := by
      obtain ⟨-, h1, -, h2, -, h3⟩ := ha
      simp only [AppList.row, List.mem_append, not_or]
      exact ⟨⟨⟨⟨h1, by decide⟩, h2⟩, by decide⟩, h3⟩
    have step := splitOn_first (AppList.row a) 10 hrow
      (t.flatMap (fun app => AppList.row app ++ ascii "\n"))
    have iht := ih (fun x hx => h x (List.mem_cons_of_mem _ hx))
    unfold rows at iht ⊢
    have e : ∀ x rest : GoString, (x ++ ascii "\n") ++ rest = x ++ (10 : Byte) :: rest := by
      intro x rest
      simp [show ascii "\n" = [(10 : Byte)] by decide]
    rw [List.flatMap_cons, e, step, iht]
    rfl

theorem cells_of_row (a : Application) (ha : a.plain) :
    cells (AppList.row a) = [a.ID, a.Version, a.User] := by
  obtain ⟨h1, -, h2, -, h3, -⟩ := ha
  have e : ascii " " = [(32 : Byte)] := by decide
  have e3 : AppList.row a = a.ID ++ (32 : Byte) :: (a.Version ++ (32 : Byte) :: a.User) := by
    simp [AppList.row, e]
  unfold cells
  rw [e3, splitOn_first _ _ h1, splitOn_first _ _ h2, splitOn_single _ _ h3]

/-- C6, as the code has it: for every decoded payload `[a1, ..., an]`,
`AppList.Humanize` returns `Columnize(t)` where `t` is the line
`APP VERSION USER` followed by one line per app in payload order, each line
ended by a newline, line `i` being id, version and user of `ai` separated by
single spaces; and when no id, version or user holds a space or a newline, the
rows of `t` are the header row, exactly `n` data rows in payload order and the
empty piece after the last newline, each data row having exactly the three
cells id, version, user. -/
theorem list_humanize (w : World) (apps : List Application) :
    (∀ body, w.decodeApplications body = some ⟨apps⟩ →
      AppList.Humanize w body = some (w.Columnize (AppList.text ⟨apps⟩))) ∧
    AppList.text ⟨apps⟩ =
      ascii "APP VERSION USER\n" ++ apps.flatMap (fun app => AppList.row app ++ ascii "\n") ∧
    ((∀ app ∈ apps, app.plain) →
      rows (AppList.text ⟨apps⟩) = ascii "APP VERSION USER" :: apps.map AppList.row ++ [[]] ∧
        ∀ app ∈ apps, cells (AppList.row app) = [app.ID, app.Version, app.User]) := by
  refine ⟨?_, AppList.text_eq apps, ?_⟩
  · intro body h
    simp [AppList.Humanize, h, AppList.render]
  · intro h
    refine ⟨?_, fun app happ => cells_of_row app (h app happ)⟩
    rw [AppList.text_eq]
    have e : ascii "APP VERSION USER\n" = ascii "APP VERSION USER" ++ [(10 : Byte)] := by decide
    have hh : (10 : Byte) ∉ ascii "APP VERSION USER" := by decide
    have step := splitOn_first (ascii "APP VERSION USER") 10 hh
      (apps.flatMap (fun app => AppList.row app ++ ascii "\n"))
    have r := rows_of_lines apps h
    unfold rows at r ⊢
    rw [e, List.append_assoc, List.singleton_append, step, r]
    rfl

/-- C6 at a concrete payload: one app with plain fields. -/
theorem list_humanize_witness :
    (∀ app ∈ [(⟨ascii "app1", ascii "v1", ascii "bob", 0, 0, []⟩ : Application)], app.plain) ∧
    rows (AppList.text ⟨[⟨ascii "app1", ascii "v1", ascii "bob", 0, 0, []⟩]⟩) =
      [ascii "APP VERSION USER", ascii "app1 v1 bob", []] ∧
    AppList.Humanize (sampleWorld 200 (ascii "x") Formatter.humanize) (ascii "x") =
      some (AppList.text ⟨[⟨ascii "app1", ascii "v1", ascii "bob", 0, 0, []⟩]⟩) :=
  ⟨by decide,
    ((list_humanize (sampleWorld 200 (ascii "x") Formatter.humanize)
      [⟨ascii "app1", ascii "v1", ascii "bob", 0, 0, []⟩]).2.2 (by decide)).1,
    (list_humanize (sampleWorld 200 (ascii "x") Formatter.humanize)
      [⟨ascii "app1", ascii "v1", ascii "bob", 0, 0, []⟩]).1 (ascii "x") rfl⟩

/-- C6 fails on the code: for one app whose id is `my app`, the only data row
of the text handed to `Columnize` has four cells, not three. -/
theorem list_humanize_counterexample :
    rows (AppList.text ⟨[⟨ascii "my app", ascii "v1", ascii "bob", 1, 0, []⟩]⟩) =
      [ascii "APP VERSION USER", ascii "my app v1 bob", []] ∧
    cells (ascii "my app v1 bob") = [ascii "my", ascii "app", ascii "v1", ascii "bob"] ∧
    (cells (ascii "my app v1 bob")).length ≠ 3 := by
  decide

/-! ## C3, C10: the text inserted into the path -/

set_option maxRecDepth 100000 in
theorem hex_of_byte : ∀ c : Byte,
    (hexValue (upperhex (c.val / 16))).isSome = true ∧
    (hexValue (upperhex (c.val % 16))).isSome = true ∧
    hexPair (upperhex (c.val / 16)) (upperhex (c.val % 16)) = some c := by
  decide

set_option maxRecDepth 100000 in
theorem kept_byte : ∀ c : Byte, shouldEscape c = false →
    unreserved c = true ∧ c ≠ 37 ∧ c ≠ 43 ∧ c ≠ 32 := by
  decide

set_option maxRecDepth 100000 in
theorem escapeByte_all : ∀ c : Byte, (escapeByte c).all escapedByte = true := by
  decide

set_option maxRecDepth 100000 in
theorem escapedByte_ne : ∀ b : Byte, escapedByte b = true →
    b ≠ 47 ∧ b ≠ 63 ∧ b ≠ 35 ∧ b ≠ 38 ∧ b ≠ 61 ∧ b ≠ 32 ∧ b ≠ 10 := by
  decide

theorem escapeByte_safe (c b : Byte) (hb : b ∈ escapeByte c) :
    b ≠ 47 ∧ b ≠ 63 ∧ b ≠ 35 ∧ b ≠ 38 ∧ b ≠ 61 ∧ b ≠ 32 ∧ b ≠ 10 :=
  escapedByte_ne b (List.all_eq_true.1 (escapeByte_all c) b hb)

theorem encodedFrom_escapeByte (c : Byte) (t : GoString) :
    encodedFrom true 0 (escapeByte c ++ t) = encodedFrom true 0 t := by
  unfold escapeByte
  by_cases h32 : c = 32
  · subst h32
    have e : encodedFrom true 0 ((43 : Byte) :: t) = encodedFrom true 0 t := by
      simp [encodedFrom]
    simpa using e
  · cases hs : shouldEscape c
    · obtain ⟨hu, h37, -, -⟩ := kept_byte c hs
      simp [h32, encodedFrom, h37, hu]
    · obtain ⟨h1, h2, -⟩ := hex_of_byte c
      simp [h32, encodedFrom, h1, h2]

theorem decodeWith_escapeByte (c : Byte) (t : GoString) :
    decodeWith true (escapeByte c ++ t) = (decodeWith true t).map (fun u => c :: u) := by
  unfold escapeByte
  by_cases h32 : c = 32
  · subst h32
    have e : decodeWith true ((43 : Byte) :: t) =
        (decodeWith true t).map (fun u => (32 : Byte) :: u) := by
      simp [decodeWith, decodeFrom]
    simpa using e
  · cases hs : shouldEscape c
    · obtain ⟨-, h37, h43, -⟩ := kept_byte c hs
      simp [h32, decodeWith, decodeFrom, h37, h43]
    · obtain ⟨-, -, h3⟩ := hex_of_byte c
      simp [h32, decodeWith, decodeFrom, h3]

theorem queryEncoded_QueryEscape (s : GoString) : queryEncoded (QueryEscape s) = true := by
  rw [QueryEscape_eq_flatMap]
  unfold queryEncoded
  induction s with
  | nil => rfl
  | cons c t ih => rw [List.flatMap_cons, encodedFrom_escapeByte, ih]

theorem queryDecode_QueryEscape (s : GoString) : queryDecode (QueryEscape s) = some s := by
  rw [QueryEscape_eq_flatMap]
  unfold queryDecode
  induction s with
  | nil => rfl
  | cons c t ih => rw [List.flatMap_cons, decodeWith_escapeByte, ih]; rfl

theorem QueryEscape_safe (s : GoString) : ∀ b ∈ QueryEscape s,
    b ≠ 47 ∧ b ≠ 63 ∧ b ≠ 35 ∧ b ≠ 38 ∧ b ≠ 61 ∧ b ≠ 32 ∧ b ≠ 10 := by
  rw [QueryEscape_eq_flatMap]
  intro b hb
  obtain ⟨c, -, hc⟩ := List.mem_flatMap.1 hb
  exact escapeByte_safe c b hc

theorem builds_path (act : Action) (w : World) (args : List GoString) (req : Request)
    (h : req ∈ builds (act.Apply w args).trace) :
    req.path = act.path (QueryEscape (args.getD 0 [])) (QueryEscape (args.getD 1 [])) := by
  rw [Action.Apply_eq_start] at h
  cases hst : act.start w args with
  | usage => rw [hst] at h; simp [Start.run, builds] at h
  | noFile name => rw [hst] at h; simp [Start.run, builds] at h
  | go pre req0 statusOk deferFirst =>
    rw [hst] at h
    obtain ⟨hpre, -, -, hpath⟩ := Action.start_go act w args pre req0 statusOk deferFirst hst
    simp only [Start.run, exchange_builds] at h
    rcases hpre with rfl | ⟨f, rfl, -⟩ <;> simp [builds] at h <;> (subst h; exact hpath)

/-- C3, as the code has it: the text each action inserts into its path is
`url.QueryEscape` of the argument (the id for AppVersions, AppShow, AppUpdate,
AppRestart and AppDestroy, and the version for AppShow); it consists only of
unreserved characters, `+` and `%XY` hex triples; replacing each `+` by a space
and each `%XY` triple by its byte gives back the argument; a space is inserted
as `+`. -/
theorem inserted_text_query_escaped :
    (∀ (act : Action) (w : World) (args : List GoString) (req : Request),
      req ∈ builds (act.Apply w args).trace →
        req.path = act.path (QueryEscape (args.getD 0 [])) (QueryEscape (args.getD 1 []))) ∧
    (∀ s : GoString, queryEncoded (QueryEscape s) = true ∧ queryDecode (QueryEscape s) = some s) ∧
    QueryEscape (ascii " ") = ascii "+" :=
  ⟨builds_path, fun s => ⟨queryEncoded_QueryEscape s, queryDecode_QueryEscape s⟩, by decide⟩

/-- C3 at a concrete run: AppShow on the id `my app` and the version `v/1`. -/
theorem inserted_text_query_escaped_witness :
    (⟨.GET, ascii "/v2/apps/my+app/versions/v%2F1", none⟩ : Request) ∈
      builds (Action.AppShow.Apply (sampleWorld 200 (ascii "x") Formatter.raw)
        [ascii "my app", ascii "v/1"]).trace ∧
    ascii "/v2/apps/my+app/versions/v%2F1" =
      Action.AppShow.path (QueryEscape (ascii "my app")) (QueryEscape (ascii "v/1")) :=
  ⟨by decide,
    inserted_text_query_escaped.1 .AppShow (sampleWorld 200 (ascii "x") Formatter.raw)
      [ascii "my app", ascii "v/1"] ⟨.GET, ascii "/v2/apps/my+app/versions/v%2F1", none⟩
      (by decide)⟩

/-- C3 fails on the code: the id `my app` is inserted as `my+app`, not as
`my%20app`; the inserted text is not made of unreserved characters and `%XY`
triples only, and replacing its `%XY` triples gives `my+app`, not the id. -/
theorem inserted_text_counterexample :
    builds (Action.AppDestroy.Apply (sampleWorld 200 (ascii "x") Formatter.raw)
      [ascii "my app"]).trace = [⟨.DELETE, ascii "/v2/apps/my+app", none⟩] ∧
    QueryEscape (ascii "my app") = ascii "my+app" ∧
    QueryEscape (ascii "my app") ≠ ascii "my%20app" ∧
    percentEncoded (QueryEscape (ascii "my app")) = false ∧
    percentDecode (QueryEscape (ascii "my app")) = some (ascii "my+app") ∧
    percentDecode (QueryEscape (ascii "my app")) ≠ some (ascii "my app") := by
  decide

theorem count_path (b : Byte) (act : Action) (id version : GoString)
    (h1 : List.count b id = 0) (h2 : List.count b version = 0) :
    List.count b (act.path id version) = List.count b act.template := by
  cases act <;> simp [Action.template, Action.path, List.count_append, h1, h2]

/-- C10: the text `QueryEscape` returns holds no `/`, `?`, `#`, `&`, `=`,
space or newline, whatever the argument; so the path of every request an action
builds has exactly as many `/` and as many `?` as the fixed template of the
action: 4 `/` for AppVersions, 5 for AppShow, 3 for AppUpdate, 4 for
AppRestart, 3 for AppDestroy, and exactly one `?` for AppUpdate and AppRestart,
none for the others. -/
theorem path_not_extended :
    (∀ (s : GoString) (b : Byte), b ∈ QueryEscape s →
      b ≠ 47 ∧ b ≠ 63 ∧ b ≠ 35 ∧ b ≠ 38 ∧ b ≠ 61 ∧ b ≠ 32 ∧ b ≠ 10) ∧
    (∀ (act : Action) (w : World) (args : List GoString) (req : Request),
      req ∈ builds (act.Apply w args).trace →
        List.count 47 req.path = List.count 47 act.template ∧
        List.count 63 req.path = List.count 63 act.template) ∧
    (∀ act : Action,
      List.count 47 act.template =
        (match act with
          | .AppList => 2 | .AppVersions => 4 | .AppShow => 5 | .AppCreate => 2
          | .AppUpdate => 3 | .AppRestart => 4 | .AppDestroy => 3) ∧
      List.count 63 act.template =
        (match act with
          | .AppUpdate => 1 | .AppRestart => 1
          | .AppList => 0 | .AppVersions => 0 | .AppShow => 0 | .AppCreate => 0
          | .AppDestroy => 0)) := by
  refine ⟨QueryEscape_safe, ?_, ?_⟩
  · intro act w args req h
    rw [builds_path act w args req h]
    have z : ∀ (b : Byte), (b = 47 ∨ b = 63) → ∀ s : GoString, List.count b (QueryEscape s) = 0 := by
      intro b hb s
      rw [List.count_eq_zero]
      intro hmem
      obtain ⟨h47, h63, -⟩ := QueryEscape_safe s b hmem
      rcases hb with rfl | rfl
      · exact h47 rfl
      · exact h63 rfl
    exact ⟨count_path 47 act _ _ (z 47 (Or.inl rfl) _) (z 47 (Or.inl rfl) _),
      count_path 63 act _ _ (z 63 (Or.inr rfl) _) (z 63 (Or.inr rfl) _)⟩
  · intro act
    cases act <;> decide

/-- C10 at a concrete run: AppUpdate on the id `a/b?c=d&e#f`. -/
theorem path_not_extended_witness :
    (⟨.PUT, ascii "/v2/apps/a%2Fb%3Fc%3Dd%26e%23f?force=true",
        some ⟨ascii "app.json", ascii "\x7b\x7d"⟩⟩ : Request) ∈
      builds (Action.AppUpdate.Apply (sampleWorld 200 (ascii "x") Formatter.raw)
        [ascii "a/b?c=d&e#f", ascii "app.json"]).trace ∧
    List.count 47 (ascii "/v2/apps/a%2Fb%3Fc%3Dd%26e%23f?force=true") =
      List.count 47 Action.AppUpdate.template ∧
    List.count 63 (ascii "/v2/apps/a%2Fb%3Fc%3Dd%26e%23f?force=true") =
      List.count 63 Action.AppUpdate.template :=
  ⟨by decide,
    path_not_extended.2.1 .AppUpdate (sampleWorld 200 (ascii "x") Formatter.raw)
      [ascii "a/b?c=d&e#f", ascii "app.json"]
      ⟨.PUT, ascii "/v2/apps/a%2Fb%3Fc%3Dd%26e%23f?force=true",
        some ⟨ascii "app.json", ascii "\x7b\x7d"⟩⟩ (by decide)⟩

end Marathonctl
